import Mathlib

/-!
Verification development for the digital-garden content-build pipeline.

The definitions below shallowly embed the repository's only non-content
logic: the contentlayer source configuration (transform chain, the
rehype-pretty-code line visitors, the build-success hook), the document
schema validation, and the site-metadata BASE_URL constant.
-/

/-- A hast child node of a code-block line, as manipulated by the
rehype-pretty-code visitors: a node with a `type` tag and a text `value`. -/
structure ChildNode where
  type : String
  value : String
deriving DecidableEq, Repr

/-- The `properties` object of a hast element node.  `className` is
`none` when the property is absent (JS `undefined`). -/
structure Properties where
  className : Option (List String)
deriving DecidableEq, Repr

/-- A hast element node for one rendered line of a code block. -/
structure LineNode where
  children : List ChildNode
  properties : Properties
deriving DecidableEq, Repr

/-- Embedding of `onVisitLine` from the contentlayer configuration: if the
line has no children it is given a single text child holding one space
(so empty lines do not collapse in grid layouts and stay copyable), and
its class list is then set to the single marker class `line`. -/
def onVisitLine (node : LineNode) : LineNode :=
  let children :=
    if node.children.length = 0 then [{ type := "text", value := " " }]
    else node.children
  { node with
      children := children,
      properties := { node.properties with className := some ["line"] } }

/-- Embedding of `onVisitHighlightedLine` from the contentlayer
configuration: when the class list is present and non-empty the class
`line--highlighted` is pushed onto it, otherwise the class list is set to
just `line--highlighted`.  (A JS empty array is truthy, but its `.length > 0`
test fails, so both the absent and the empty class list take the fallback.) -/
def onVisitHighlightedLine (node : LineNode) : LineNode :=
  match node.properties.className with
  | some nodeClass =>
      if 0 < nodeClass.length then
        { node with properties :=
            { node.properties with className := some (nodeClass ++ ["line--highlighted"]) } }
      else
        { node with properties :=
            { node.properties with className := some ["line--highlighted"] } }
  | none =>
      { node with properties :=
          { node.properties with className := some ["line--highlighted"] } }

/-- The fallback branch of `onVisitHighlightedLine` fires exactly when the
class list is absent or empty. -/
def takesHighlightFallback (node : LineNode) : Prop :=
  node.properties.className = none ∨ node.properties.className = some []

instance (node : LineNode) : Decidable (takesHighlightFallback node) := by
  unfold takesHighlightFallback
  infer_instance

/-- Claim C1: after the line visitor runs, a line's children are non-empty
and its class list contains the marker class `line`; an originally empty
line is replaced by exactly one text child holding a single space. -/
theorem onVisitLine_nonempty_and_marked (node : LineNode) :
    (onVisitLine node).children ≠ [] ∧
    (onVisitLine node).properties.className = some ["line"] ∧
    "line" ∈ ((onVisitLine node).properties.className).getD [] ∧
    (node.children = [] →
      (onVisitLine node).children = [{ type := "text", value := " " }]) := by
  refine ⟨?_, rfl, by simp [onVisitLine], ?_⟩
  · unfold onVisitLine
    by_cases h : node.children.length = 0
    · simp [h]
    · simp only [h, if_neg]
      simpa [List.length_eq_zero] using h
  · intro h
    simp [onVisitLine, h]

/-- Witness for C1 at a concrete empty line. -/
theorem onVisitLine_nonempty_and_marked_witness :
    (onVisitLine { children := [], properties := { className := none } }).children ≠ [] ∧
    (onVisitLine { children := [], properties := { className := none } }).children =
      [{ type := "text", value := " " }] := by
  have h := onVisitLine_nonempty_and_marked
    { children := [], properties := { className := none } }
  exact ⟨h.1, h.2.2.2 rfl⟩

/-- Claim C2: running the line visitor and then the highlighted-line
visitor yields a class list that extends the class list of the
non-emphasized case (line visitor alone): the emphasis class is appended,
every previously present class is preserved. -/
theorem onVisitHighlightedLine_appends (node : LineNode) :
    ((onVisitHighlightedLine (onVisitLine node)).properties.className).getD [] =
      ((onVisitLine node).properties.className).getD [] ++ ["line--highlighted"] ∧
    ((onVisitLine node).properties.className).getD [] ⊆
      ((onVisitHighlightedLine (onVisitLine node)).properties.className).getD [] ∧
    "line--highlighted" ∈
      ((onVisitHighlightedLine (onVisitLine node)).properties.className).getD [] := by
  refine ⟨?_, ?_, ?_⟩ <;>
    simp [onVisitLine, onVisitHighlightedLine, List.subset_def]

/-- Witness for C2 at a concrete line node. -/
theorem onVisitHighlightedLine_appends_witness :
    ((onVisitHighlightedLine (onVisitLine
        { children := [{ type := "text", value := "x" }],
          properties := { className := none } })).properties.className).getD [] =
      ["line", "line--highlighted"] := by
  have h := onVisitHighlightedLine_appends
    { children := [{ type := "text", value := "x" }],
      properties := { className := none } }
  simpa [onVisitLine] using h.1

/-- Claim C9: the line visitor unconditionally sets the class list to
exactly `["line"]`, so by the time the highlighted-line visitor runs the
class list is non-empty, its fallback branch is unreachable, and a
highlighted line's class list is exactly `["line", "line--highlighted"]`. -/
theorem highlighted_line_classes_exact (node : LineNode) :
    (onVisitLine node).properties.className = some ["line"] ∧
    ¬ takesHighlightFallback (onVisitLine node) ∧
    (onVisitHighlightedLine (onVisitLine node)).properties.className =
      some ["line", "line--highlighted"] := by
  refine ⟨rfl, ?_, ?_⟩
  · intro h
    rcases h with h | h <;> simp [onVisitLine] at h
  · simp [onVisitLine, onVisitHighlightedLine]

/-- Witness for C9 at a concrete line node. -/
theorem highlighted_line_classes_exact_witness :
    (onVisitHighlightedLine (onVisitLine
        { children := [], properties := { className := some ["stale"] } })).properties.className =
      some ["line", "line--highlighted"] :=
  (highlighted_line_classes_exact
    { children := [], properties := { className := some ["stale"] } }).2.2

/-- The heading anchor class exported by the contentlayer configuration. -/
def HEADING_LINK_ANCHOR : String := "anchor-heading-link"

/-- The content directory declared by `makeSource`. -/
def contentDirPath : String := "./content"

/-- The fixed syntax-highlighting color theme passed to rehype-pretty-code. -/
def prettyCodeTheme : String := "github-dark"

/-- The transform steps registered in the contentlayer configuration. -/
inductive TransformStep where
  | remarkGfm
  | remarkMath
  | rehypeKatex
  | rehypeSlug
  | rehypeAutolinkHeadings
  | rehypePrettyCode
deriving DecidableEq, Repr

/-- The remark plugin list of the configuration: `[[remarkGfm], [remarkMath]]`. -/
def remarkPlugins : List TransformStep :=
  [.remarkGfm, .remarkMath]

/-- The rehype plugin list of the configuration:
`[rehypeKatex, rehypeSlug, [rehypeAutolinkHeadings, ...], [rehypePrettyCode, ...]]`. -/
def rehypePlugins : List TransformStep :=
  [.rehypeKatex, .rehypeSlug, .rehypeAutolinkHeadings, .rehypePrettyCode]

/-- The full transform chain in registration order: remark plugins run on
the markdown tree before the rehype plugins run on the html tree. -/
def transformChain : List TransformStep :=
  remarkPlugins ++ rehypePlugins

/-- Sequential application of a transform chain: each step receives the
tree produced by the previous step (left fold over the step list). -/
def applyChain {Tree : Type} (apply : TransformStep → Tree → Tree)
    (steps : List TransformStep) (tree : Tree) : Tree :=
  steps.foldl (fun acc step => apply step acc) tree

/-- Claim C3: the transform chain is the fixed list gfm, math, katex,
slug, autolink-headings, pretty-code, and running it applies the steps in
exactly that order, each step receiving the previous step's output; the
chain is a constant, hence identical for every document and build. -/
theorem transformChain_fixed_order {Tree : Type}
    (apply : TransformStep → Tree → Tree) (tree : Tree) :
    transformChain =
      [.remarkGfm, .remarkMath, .rehypeKatex, .rehypeSlug,
       .rehypeAutolinkHeadings, .rehypePrettyCode] ∧
    applyChain apply transformChain tree =
      apply .rehypePrettyCode (apply .rehypeAutolinkHeadings (apply .rehypeSlug
        (apply .rehypeKatex (apply .remarkMath (apply .remarkGfm tree))))) :=
  ⟨rfl, rfl⟩

/-- The process environment variables read by `src/lib/metadata.ts`;
`none` models an unset variable (JS `undefined`). -/
structure Env where
  VERCEL_URL : Option String
  NEXT_PUBLIC_BASE_URL : Option String
  PORT : Option String
deriving DecidableEq, Repr

/-- JS template-literal interpolation of a possibly-undefined string:
an unset variable renders as the text `undefined`. -/
def interpolate (value : Option String) : String :=
  match value with
  | some s => s
  | none => "undefined"

/-- The localhost fallback string of `BASE_URL`:
`http://localhost:${process.env.PORT || 3000}`. -/
def localhostFallback (env : Env) : String :=
  "http://localhost:" ++
    (match env.PORT with
     | some p => if p ≠ "" then p else "3000"
     | none => "3000")

/-- Embedding of the `BASE_URL` constant of `src/lib/metadata.ts`:
a JS `||` chain whose first operand is the template literal
`https://${process.env.VERCEL_URL}` (a string is falsy exactly when
empty; an unset env var is falsy). -/
def BASE_URL (env : Env) : String :=
  let first := "https://" ++ interpolate env.VERCEL_URL
  if first ≠ "" then first
  else
    match env.NEXT_PUBLIC_BASE_URL with
    | some s => if s ≠ "" then s else localhostFallback env
    | none => localhostFallback env

/-- Claim C10: the first operand of the `||` chain is a template literal
and thus never empty, so `BASE_URL` always equals `https://` followed by
the value of `VERCEL_URL` (the text `undefined` when unset), and the
`NEXT_PUBLIC_BASE_URL` and localhost fallbacks are never used. -/
theorem BASE_URL_ignores_fallbacks (env : Env) :
    BASE_URL env = "https://" ++ interpolate env.VERCEL_URL ∧
    (env.VERCEL_URL = none → BASE_URL env = "https://undefined") ∧
    (∀ fallbackEnv : Env, fallbackEnv.VERCEL_URL = env.VERCEL_URL →
      BASE_URL fallbackEnv = BASE_URL env) := by
  have hne : ∀ v : Option String, ("https://" ++ interpolate v) ≠ "" := by
    intro v h
    have hlen := congrArg String.length h
    have h8 : "https://".length = 8 := rfl
    have h0 : ("" : String).length = 0 := rfl
    rw [String.length_append, h8, h0] at hlen
    omega
  refine ⟨?_, ?_, ?_⟩
  · simp only [BASE_URL]
    rw [if_pos (hne env.VERCEL_URL)]
  · intro h
    simp only [BASE_URL, h]
    rw [if_pos (hne none)]
    rfl
  · intro fallbackEnv hv
    simp only [BASE_URL, hv]
    rw [if_pos (hne env.VERCEL_URL), if_pos (hne env.VERCEL_URL)]

/-- Witness for C10 at a concrete environment with `VERCEL_URL` unset and
both fallback variables set: the fallbacks are still ignored. -/
theorem BASE_URL_ignores_fallbacks_witness :
    BASE_URL { VERCEL_URL := none,
               NEXT_PUBLIC_BASE_URL := some "https://example.com",
               PORT := some "8080" } = "https://undefined" :=
  (BASE_URL_ignores_fallbacks
    { VERCEL_URL := none,
      NEXT_PUBLIC_BASE_URL := some "https://example.com",
      PORT := some "8080" }).2.1 rfl

/-- The document shapes declared in `documentTypes`: `Post` and `Page`. -/
inductive DocKind where
  | post
  | page
deriving DecidableEq, Repr

/-- Modelled from the spec: a content file under the content directory,
with its path, the document shape its path pattern selects, its
frontmatter fields (absent fields are `none`), and its markup body.  The
`Post` and `Page` schema declarations (`lib/content-definitions`) are not
under `src/`; the field set follows the spec's data model (title, dates,
tags, status, optional series ordering). -/
structure ContentFile where
  path : String
  kind : DocKind
  title : Option String
  publishedDate : Option String
  body : String
deriving DecidableEq, Repr

/-- A schema-validation error identifying the offending file and field. -/
structure ValidationError where
  file : String
  field : String
deriving DecidableEq, Repr

/-- The characters of the markup extension `.mdx`, reversed. -/
def mdxExtRev : List Char := ['x', 'd', 'm', '.']

/-- Modelled from the spec: slug derivation — the file path with its
markup extension removed (deterministic in the path). -/
def slugChars (cs : List Char) : List Char :=
  if cs.reverse.take 4 = mdxExtRev then (cs.reverse.drop 4).reverse else cs

/-- Modelled from the spec: the slug of a content file, derived
deterministically from its path. -/
def slugFromPath (path : String) : String :=
  String.mk (slugChars path.data)

/-- A processed document entry of the build result. -/
structure Document where
  slug : String
  title : String
  kind : DocKind
  body : String
deriving DecidableEq, Repr

/-- Modelled from the spec: schema validation of one content file.  A
`Post` requires `title` and `publishedDate`; a `Page` requires `title`
(the spec's §8 scenario treats `{title, publishedDate}` as a valid post).
A missing required field yields a validation error naming the file and
the field; a valid file yields exactly one document entry. -/
def validateFile (f : ContentFile) : Except ValidationError Document :=
  match f.title with
  | none => .error { file := f.path, field := "title" }
  | some t =>
      match f.kind with
      | .page => .ok { slug := slugFromPath f.path, title := t, kind := .page, body := f.body }
      | .post =>
          match f.publishedDate with
          | none => .error { file := f.path, field := "publishedDate" }
          | some _ =>
              .ok { slug := slugFromPath f.path, title := t, kind := .post, body := f.body }

/-- The document entry produced for a file that passes validation. -/
def docOf (f : ContentFile) : Document :=
  { slug := slugFromPath f.path, title := f.title.getD "", kind := f.kind, body := f.body }

/-- Modelled from the spec: fail-fast document loading — files are
validated in order and the first schema violation aborts the whole load
with its error; no retry, no local recovery. -/
def loadDocuments : List ContentFile → Except ValidationError (List Document)
  | [] => .ok []
  | f :: fs =>
      match validateFile f with
      | .error e => .error e
      | .ok d =>
          match loadDocuments fs with
          | .error e => .error e
          | .ok ds => .ok (d :: ds)

/-- A log entry emitted by the success hook (a `console.log` call with a
label and a numeric argument). -/
structure LogEntry where
  label : String
  count : Nat
deriving DecidableEq, Repr

/-- Embedding of the `onSuccess` hook body: it reads `allDocuments` from
the build data and logs its length under the label `allDocuments`. -/
def onSuccess (allDocuments : List Document) : List LogEntry :=
  [{ label := "allDocuments", count := allDocuments.length }]

/-- Modelled from the spec: one build invocation — load and validate all
documents (fail-fast), then invoke the success hook exactly once on the
full collection; the result is the document collection plus the hook's
log output. -/
def build (files : List ContentFile) : Except ValidationError (List Document × List LogEntry) :=
  match loadDocuments files with
  | .error e => .error e
  | .ok docs => .ok (docs, onSuccess docs)

/-- Claim C5: on every successful build the success hook runs exactly
once, after all documents are loaded, and its only effect is one log
entry holding the length of the aggregate document collection. -/
theorem onSuccess_logs_count_once (files : List ContentFile)
    (docs : List Document) (logs : List LogEntry)
    (h : build files = .ok (docs, logs)) :
    logs = onSuccess docs ∧
    logs = [{ label := "allDocuments", count := docs.length }] ∧
    logs.length = 1 := by
  unfold build at h
  cases hload : loadDocuments files with
  | error e => rw [hload] at h; cases h
  | ok ds =>
      rw [hload] at h
      cases h
      exact ⟨rfl, rfl, rfl⟩

/-- A concrete valid post file, used by witnesses. -/
def samplePost : ContentFile :=
  { path := "posts/a.mdx", kind := .post, title := some "T",
    publishedDate := some "2024-01-01", body := "hello" }

/-- A concrete valid page file, used by witnesses. -/
def samplePage : ContentFile :=
  { path := "about.mdx", kind := .page, title := some "About",
    publishedDate := none, body := "hi" }

/-- A concrete post file missing its required `publishedDate`. -/
def badPost : ContentFile :=
  { path := "posts/bad.mdx", kind := .post, title := some "B",
    publishedDate := none, body := "x" }

/-- Witness for C5: a concrete one-file build whose log is the single
count entry. -/
theorem onSuccess_logs_count_once_witness :
    ∃ docs logs, build [samplePost] = .ok (docs, logs) ∧
      logs = [{ label := "allDocuments", count := 1 }] := by
  refine ⟨[docOf samplePost], [{ label := "allDocuments", count := 1 }], by rfl, ?_⟩
  have h := onSuccess_logs_count_once [samplePost] [docOf samplePost]
    [{ label := "allDocuments", count := 1 }] (by rfl)
  exact h.2.1

/-- Every validation error produced for a file names that file's path and
one of the schema's required fields. -/
theorem validateFile_error_names_file (f : ContentFile) (e : ValidationError)
    (he : validateFile f = .error e) :
    e.file = f.path ∧ (e.field = "title" ∨ e.field = "publishedDate") := by
  unfold validateFile at he
  cases htitle : f.title with
  | none =>
      rw [htitle] at he
      cases he
      exact ⟨rfl, Or.inl rfl⟩
  | some t =>
      rw [htitle] at he
      cases hkind : f.kind with
      | page => rw [hkind] at he; cases he
      | post =>
          rw [hkind] at he
          cases hdate : f.publishedDate with
          | none =>
              rw [hdate] at he
              cases he
              exact ⟨rfl, Or.inr rfl⟩
          | some d => rw [hdate] at he; cases he

/-- If any file of the batch fails validation, loading returns a
validation error that comes from some file of the batch. -/
theorem loadDocuments_error_of_invalid (files : List ContentFile)
    (f : ContentFile) (e : ValidationError) (hf : f ∈ files)
    (he : validateFile f = .error e) :
    ∃ failure, loadDocuments files = .error failure ∧
      ∃ g, g ∈ files ∧ validateFile g = .error failure := by
  induction files with
  | nil => cases hf
  | cons g gs ih =>
      rcases List.mem_cons.mp hf with hfg | hmem
      · subst hfg
        cases hv : validateFile f with
        | error e' =>
            exact ⟨e', by simp [loadDocuments, hv], f, List.mem_cons_self _ _, hv⟩
        | ok d => rw [hv] at he; cases he
      · cases hv : validateFile g with
        | error e' =>
            exact ⟨e', by simp [loadDocuments, hv], g, List.mem_cons_self _ _, hv⟩
        | ok d =>
            obtain ⟨failure, hload, g', hg', hval⟩ := ih hmem
            exact ⟨failure, by simp [loadDocuments, hv, hload], g',
              List.mem_cons_of_mem _ hg', hval⟩

/-- Claim C6: a content file whose frontmatter fails its declared schema
makes the whole build fail with a validation error naming the offending
file and field; no document collection (hence no entry for that file) is
produced, and the fail-fast load offers no retry or local recovery. -/
theorem invalid_frontmatter_aborts_build (files : List ContentFile)
    (f : ContentFile) (e : ValidationError) (hf : f ∈ files)
    (he : validateFile f = .error e) :
    e.file = f.path ∧ (e.field = "title" ∨ e.field = "publishedDate") ∧
    (∀ result, build files ≠ .ok result) ∧
    ∃ failure, build files = .error failure ∧
      ∃ g, g ∈ files ∧ validateFile g = .error failure ∧ failure.file = g.path := by
  obtain ⟨hfile, hfield⟩ := validateFile_error_names_file f e he
  obtain ⟨failure, hload, g, hg, hval⟩ := loadDocuments_error_of_invalid files f e hf he
  refine ⟨hfile, hfield, ?_, failure, ?_, g, hg, hval,
    (validateFile_error_names_file g failure hval).1⟩
  · intro result hok
    unfold build at hok
    rw [hload] at hok
    cases hok
  · unfold build
    rw [hload]

/-- Witness for C6: a batch holding a post with no `publishedDate` fails
with an error naming that file and field. -/
theorem invalid_frontmatter_aborts_build_witness :
    ∃ failure, build [samplePost, badPost] = .error failure ∧
      failure = { file := "posts/bad.mdx", field := "publishedDate" } := by
  have h := invalid_frontmatter_aborts_build [samplePost, badPost] badPost
    { file := "posts/bad.mdx", field := "publishedDate" }
    (by decide) (by rfl)
  obtain ⟨-, -, -, failure, hbuild, -⟩ := h
  refine ⟨failure, hbuild, ?_⟩
  have : build [samplePost, badPost] =
      .error { file := "posts/bad.mdx", field := "publishedDate" } := by rfl
  rw [this] at hbuild
  cases hbuild
  rfl

/-- The states of one build invocation: not started, failed on
validation, or complete with the document collection and the hook log. -/
inductive BuildState where
  | notStarted (files : List ContentFile)
  | failed (e : ValidationError)
  | complete (docs : List Document) (logs : List LogEntry)
deriving DecidableEq, Repr

/-- One build invocation as a step relation: from `notStarted` the build
either fails on the first schema violation or completes with the loaded
documents and the success-hook log.  The relation's only input is the
content-file list: no clock, environment, or other ambient state occurs
in it. -/
inductive BuildStep : BuildState → BuildState → Prop where
  | fail (files : List ContentFile) (e : ValidationError) :
      loadDocuments files = .error e →
      BuildStep (.notStarted files) (.failed e)
  | succeed (files : List ContentFile) (docs : List Document) :
      loadDocuments files = .ok docs →
      BuildStep (.notStarted files) (.complete docs (onSuccess docs))

/-- Claim C7: the build is deterministic — two runs started from the same
input files reach the same final state, hence byte-identical rendered
output; no step depends on anything besides the input files. -/
theorem buildStep_deterministic (s r1 r2 : BuildState)
    (h1 : BuildStep s r1) (h2 : BuildStep s r2) : r1 = r2 := by
  cases h1 with
  | fail files e hload1 =>
      cases h2 with
      | fail files e' hload2 =>
          rw [hload1] at hload2
          cases hload2
          rfl
      | succeed files docs hload2 =>
          rw [hload1] at hload2
          cases hload2
  | succeed files docs hload1 =>
      cases h2 with
      | fail files e' hload2 =>
          rw [hload1] at hload2
          cases hload2
      | succeed files docs' hload2 =>
          rw [hload1] at hload2
          cases hload2
          rfl

/-- Witness for C7: two concrete runs on the same one-file input agree. -/
theorem buildStep_deterministic_witness :
    BuildState.complete [docOf samplePost] (onSuccess [docOf samplePost]) =
      BuildState.complete [docOf samplePost] (onSuccess [docOf samplePost]) :=
  buildStep_deterministic (.notStarted [samplePost]) _ _
    (.succeed [samplePost] [docOf samplePost] (by rfl))
    (.succeed [samplePost] [docOf samplePost] (by rfl))

/-- A path carries the markup extension `.mdx` exactly when the last four
characters of its character list are `.mdx`. -/
def hasMdxExt (path : String) : Prop :=
  path.data.reverse.take 4 = mdxExtRev

instance (path : String) : Decidable (hasMdxExt path) := by
  unfold hasMdxExt
  infer_instance

/-- Slug derivation is injective on paths carrying the `.mdx` extension:
stripping a common fixed suffix cannot merge two distinct paths. -/
theorem slugFromPath_injOn (p q : String) (hp : hasMdxExt p) (hq : hasMdxExt q)
    (h : slugFromPath p = slugFromPath q) : p = q := by
  unfold slugFromPath slugChars at h
  unfold hasMdxExt at hp hq
  rw [if_pos hp, if_pos hq] at h
  have hdata : slugChars p.data = slugChars q.data := by
    unfold slugChars
    rw [if_pos hp, if_pos hq]
    exact congrArg String.data h
  unfold slugChars at hdata
  rw [if_pos hp, if_pos hq] at hdata
  have hdrop : p.data.reverse.drop 4 = q.data.reverse.drop 4 :=
    List.reverse_injective hdata
  have hrev : p.data.reverse = q.data.reverse := by
    calc p.data.reverse
        = p.data.reverse.take 4 ++ p.data.reverse.drop 4 :=
          (List.take_append_drop 4 p.data.reverse).symm
      _ = q.data.reverse.take 4 ++ q.data.reverse.drop 4 := by rw [hp, hq, hdrop]
      _ = q.data.reverse := List.take_append_drop 4 q.data.reverse
  cases p with
  | mk pd =>
      cases q with
      | mk qd =>
          have : pd = qd := List.reverse_injective hrev
          rw [this]

/-- A file that passes validation yields exactly the entry `docOf`. -/
theorem validateFile_ok_eq_docOf (f : ContentFile) (d : Document)
    (hv : validateFile f = .ok d) : d = docOf f := by
  unfold validateFile at hv
  cases htitle : f.title with
  | none => rw [htitle] at hv; cases hv
  | some t =>
      rw [htitle] at hv
      cases hkind : f.kind with
      | page =>
          rw [hkind] at hv
          cases hv
          simp [docOf, htitle, hkind]
      | post =>
          rw [hkind] at hv
          cases hdate : f.publishedDate with
          | none => rw [hdate] at hv; cases hv
          | some dd =>
              rw [hdate] at hv
              cases hv
              simp [docOf, htitle, hkind]

/-- When every file of the batch passes validation, loading succeeds and
produces exactly one document entry per file, in order. -/
theorem loadDocuments_ok_of_valid (files : List ContentFile)
    (hvalid : ∀ f ∈ files, ∃ d, validateFile f = .ok d) :
    loadDocuments files = .ok (files.map docOf) := by
  induction files with
  | nil => rfl
  | cons f fs ih =>
      obtain ⟨d, hd⟩ := hvalid f (List.mem_cons_self _ _)
      have hdoc : validateFile f = .ok (docOf f) := by
        rw [hd, validateFile_ok_eq_docOf f d hd]
      have hrest := ih (fun g hg => hvalid g (List.mem_cons_of_mem _ hg))
      simp [loadDocuments, hdoc, hrest]

/-- Claim C8: for a batch of valid content files the build produces
exactly one document entry per file; each entry's slug derives
deterministically from the file's path; and when the paths are distinct
`.mdx` paths, the slugs of the build result are pairwise distinct. -/
theorem build_one_entry_unique_slugs (files : List ContentFile)
    (hvalid : ∀ f ∈ files, ∃ d, validateFile f = .ok d)
    (hnodup : (files.map ContentFile.path).Nodup)
    (hext : ∀ f ∈ files, hasMdxExt f.path) :
    loadDocuments files = .ok (files.map docOf) ∧
    (files.map docOf).length = files.length ∧
    (∀ f ∈ files, (docOf f).slug = slugFromPath f.path) ∧
    ((files.map docOf).map Document.slug).Nodup := by
  refine ⟨loadDocuments_ok_of_valid files hvalid, List.length_map _ _,
    fun f _ => rfl, ?_⟩
  have hmap : (files.map docOf).map Document.slug =
      (files.map ContentFile.path).map slugFromPath := by
    simp [docOf, Function.comp]
  rw [hmap]
  refine List.Nodup.map_on ?_ hnodup
  intro x hx y hy hxy
  obtain ⟨fx, hfx, hfxp⟩ := List.mem_map.mp hx
  obtain ⟨fy, hfy, hfyp⟩ := List.mem_map.mp hy
  subst hfxp
  subst hfyp
  exact slugFromPath_injOn _ _ (hext fx hfx) (hext fy hfy) hxy

/-- Witness for C8: a concrete two-file batch loads to two entries with
distinct slugs. -/
theorem build_one_entry_unique_slugs_witness :
    loadDocuments [samplePost, samplePage] =
      .ok [docOf samplePost, docOf samplePage] ∧
    ((([samplePost, samplePage].map docOf).map Document.slug)).Nodup := by
  have h := build_one_entry_unique_slugs [samplePost, samplePage]
    (fun f hf => by
      rcases List.mem_cons.mp hf with h1 | hf2
      · exact ⟨docOf samplePost, by rw [h1]; rfl⟩
      · rcases List.mem_cons.mp hf2 with h2 | h3
        · exact ⟨docOf samplePage, by rw [h2]; rfl⟩
        · cases h3)
    (by decide) (by decide)
  exact ⟨h.1, h.2.2.2⟩

/-- Modelled from the spec: slugification of a heading's text — the text
lower-cased with spaces turned into hyphens (`rehype-slug` is not part of
this repository; the spec treats it as a black-box slug assigner). -/
def slugify (s : String) : String :=
  String.mk (s.data.map (fun c => if c = ' ' then '-' else c.toLower))

/-- The greatest length of any string in the list. -/
def maxLen (used : List String) : Nat :=
  used.foldr (fun s m => Nat.max s.length m) 0

/-- Every member of the list is bounded by `maxLen`. -/
theorem length_le_maxLen (used : List String) (u : String) (hu : u ∈ used) :
    u.length ≤ maxLen used := by
  induction used with
  | nil => cases hu
  | cons v vs ih =>
      rcases List.mem_cons.mp hu with h | h
      · subst h
        exact Nat.le_max_left _ _
      · exact Nat.le_trans (ih h) (Nat.le_max_right _ _)

/-- Modelled from the spec: collision handling for heading ids — the slug
layer leaves the policy to the library default; it is modelled as a
deterministic suffixing that always yields an id not yet in use. -/
def fresh (used : List String) (base : String) : String :=
  if base ∈ used then
    base ++ String.mk (List.replicate (maxLen used + 1) '-')
  else base

/-- A freshly assigned id is never one already in use. -/
theorem fresh_not_mem (used : List String) (base : String) :
    fresh used base ∉ used := by
  unfold fresh
  by_cases h : base ∈ used
  · rw [if_pos h]
    intro hmem
    have hle := length_le_maxLen used _ hmem
    cases base with
    | mk bd =>
        have hcomp : (String.mk bd ++
            String.mk (List.replicate (maxLen used + 1) '-')).length =
            bd.length + (maxLen used + 1) := by
          show (bd ++ List.replicate (maxLen used + 1) '-').length = _
          rw [List.length_append, List.length_replicate]
        rw [hcomp] at hle
        omega
  · rw [if_neg h]
    exact h

/-- Modelled from the spec: heading-id assignment over a document's
headings in order, tracking the ids already used. -/
def assignIdsAux (used : List String) : List String → List (String × String)
  | [] => []
  | t :: ts =>
      let i := fresh used (slugify t)
      (t, i) :: assignIdsAux (i :: used) ts

/-- Modelled from the spec: heading-id slug assignment for a whole
document body (step d of the transform chain). -/
def assignIds (headings : List String) : List (String × String) :=
  assignIdsAux [] headings

/-- The ids assigned to a document's headings avoid the initial used set
and are pairwise distinct. -/
theorem assignIdsAux_ids_nodup (headings : List String) :
    ∀ used : List String,
      ((assignIdsAux used headings).map Prod.snd).Nodup ∧
      ∀ i ∈ (assignIdsAux used headings).map Prod.snd, i ∉ used := by
  induction headings with
  | nil => intro used; exact ⟨List.nodup_nil, by intro i h; cases h⟩
  | cons t ts ih =>
      intro used
      obtain ⟨hnodup, havoid⟩ := ih (fresh used (slugify t) :: used)
      constructor
      · refine List.nodup_cons.mpr ⟨?_, hnodup⟩
        intro hmem
        exact havoid _ hmem (List.mem_cons_self _ _)
      · intro i hi
        rcases List.mem_cons.mp hi with h | h
        · subst h
          exact fresh_not_mem used (slugify t)
        · intro hused
          exact havoid i h (List.mem_cons_of_mem _ hused)

/-- An anchor element produced by the autolink step. -/
structure Anchor where
  href : String
  className : List String
deriving DecidableEq, Repr

/-- A rendered heading: its text, the generated ids attached to it, and
the self-link anchors wrapping it. -/
structure RenderedHeading where
  text : String
  ids : List String
  wrappers : List Anchor
deriving DecidableEq, Repr

/-- Modelled from the spec: `rehype-autolink-headings` with behavior
`wrap` and anchor class `HEADING_LINK_ANCHOR` — each heading with an
assigned id is wrapped in exactly one anchor pointing at that id. -/
def autolinkHeadings (assigned : List (String × String)) : List RenderedHeading :=
  assigned.map fun ti =>
    { text := ti.1,
      ids := [ti.2],
      wrappers := [{ href := "#" ++ ti.2, className := [HEADING_LINK_ANCHOR] }] }

/-- The heading part of the rendered output of one document body: slug
assignment followed by self-link wrapping. -/
def renderHeadings (headings : List String) : List RenderedHeading :=
  autolinkHeadings (assignIds headings)

/-- Collecting the ids of the wrapped headings gives back the assigned
ids. -/
theorem autolinkHeadings_ids (assigned : List (String × String)) :
    ((autolinkHeadings assigned).map RenderedHeading.ids).flatten =
      assigned.map Prod.snd := by
  induction assigned with
  | nil => rfl
  | cons x xs ih => simpa [autolinkHeadings] using ih

/-- Claim C4: rendering gives one output heading per source heading; each
carries exactly one generated id and exactly one self-link wrapper (an
anchor with class `anchor-heading-link` pointing at that id); and the
generated ids are unique within the document. -/
theorem headings_one_id_one_wrapper_unique_ids (headings : List String) :
    (renderHeadings headings).length = headings.length ∧
    (∀ r ∈ renderHeadings headings, ∃ i, r.ids = [i] ∧
      r.wrappers = [{ href := "#" ++ i, className := [HEADING_LINK_ANCHOR] }]) ∧
    ((renderHeadings headings).map RenderedHeading.ids).flatten.Nodup := by
  refine ⟨?_, ?_, ?_⟩
  · have hlen : ∀ used, (assignIdsAux used headings).length = headings.length := by
      induction headings with
      | nil => intro used; rfl
      | cons t ts ih => intro used; simp [assignIdsAux, ih]
    simp [renderHeadings, autolinkHeadings, assignIds, hlen]
  · intro r hr
    obtain ⟨ti, _, hti⟩ := List.mem_map.mp hr
    exact ⟨ti.2, by rw [← hti], by rw [← hti]⟩
  · rw [renderHeadings, autolinkHeadings_ids]
    exact (assignIdsAux_ids_nodup headings []).1

/-- Witness for C4 at a concrete document with a duplicated heading
text: both rendered headings keep distinct ids. -/
theorem headings_one_id_one_wrapper_unique_ids_witness :
    (renderHeadings ["Intro", "Intro"]).length = 2 ∧
    ((renderHeadings ["Intro", "Intro"]).map RenderedHeading.ids).flatten.Nodup := by
  have h := headings_one_id_one_wrapper_unique_ids ["Intro", "Intro"]
  exact ⟨h.1, h.2.2⟩
